import Mathlib

/-!
Verification of the trusty task tracker core (task graph model, status
aggregation, identifier allocation, boundary parsers, and the store
contract) against its specification.

Embedding conventions:
* Rust `u32` ids and `usize` counts become `Nat` (no arithmetic near the
  overflow boundary occurs in the embedded code).
* `chrono::DateTime<Utc>` timestamps become abstract `Nat` instants;
  `Utc::now()` becomes an explicit `now` argument threaded to mutators.
* `HashSet<u32>` becomes `Finset Nat`; `Vec<u32>` becomes `List Nat`.
* `Task::compute_effective_status` recurses through the task list with no
  cycle detection, so on a cyclic subtask graph the Rust function does not
  terminate.  The embedding `effectiveStatusFuel` threads explicit fuel and
  returns `none` when the fuel runs out, i.e. `none` models divergence;
  `Task.compute_effective_status` supplies fuel `allTasks.length + 1`, which
  is shown sufficient whenever the subtask-reference relation is acyclic.
-/

namespace Trusty

/-- `TaskStatus` from src/task.rs lines 7-14. -/
inductive TaskStatus where
  | Pending
  | InProgress
  | Done
  | Blocked
  | Deferred
  | Cancelled
deriving DecidableEq, Repr

/-- `Priority` from src/task.rs lines 18-22. -/
inductive Priority where
  | High
  | Medium
  | Low
deriving DecidableEq, Repr

/-- `Complexity` from src/task.rs lines 26-30. -/
inductive Complexity where
  | Simple
  | Medium
  | Complex
deriving DecidableEq, Repr

/-- `Task` from src/task.rs lines 33-46. -/
structure Task where
  id : Nat
  title : String
  description : String
  status : TaskStatus
  priority : Priority
  complexity : Option Complexity
  dependencies : Finset Nat
  subtasks : List Nat
  created_at : Nat
  updated_at : Nat
  completed_at : Option Nat
  tags : List String
deriving DecidableEq

/-- `Task::set_status` (src/task.rs lines 67-74): store the new status, bump
`updated_at`, and stamp `completed_at` when the new status is `Done`. -/
def Task.set_status (t : Task) (status : TaskStatus) (now : Nat) : Task :=
  let t1 := { t with status := status, updated_at := now }
  if status = TaskStatus.Done then { t1 with completed_at := some now } else t1

/-- `Task::add_subtask` (src/task.rs lines 86-89): push the id on the ordered
subtask list, unconditionally, and bump `updated_at`. -/
def Task.add_subtask (t : Task) (subtask_id : Nat) (now : Nat) : Task :=
  { t with subtasks := t.subtasks ++ [subtask_id], updated_at := now }

/-- `Task::is_ready` (src/task.rs lines 91-96): `Pending` and all
dependencies among the completed ids. -/
def Task.is_ready (t : Task) (completed_tasks : Finset Nat) : Bool :=
  match t.status with
  | TaskStatus.Pending => decide (t.dependencies ⊆ completed_tasks)
  | _ => false

/-- `all_tasks.iter().find(|t| t.id == id)` as used in src/task.rs lines
105 and 147-148: first task in the list carrying the given id. -/
def findTask (all_tasks : List Task) (id : Nat) : Option Task :=
  all_tasks.find? (fun u => u.id == id)

/-- Collect an optional result for every element, failing (diverging) as soon
as one element fails; models a sequence of recursive calls of which any one
may diverge. -/
def mapOpt (f : α → Option β) : List α → Option (List β)
  | [] => some []
  | a :: as =>
    match f a, mapOpt f as with
    | some b, some bs => some (b :: bs)
    | _, _ => none

/-- Lines 109-139 of src/task.rs: given the task's own stored status and the
collected child effective statuses, the empty-children fallback followed by
the first-match rule chain exactly as the code writes it. -/
def statusFromChildren (own : TaskStatus) (subtask_statuses : List TaskStatus) : TaskStatus :=
  if subtask_statuses.isEmpty then own
  else if subtask_statuses.all (fun s => decide (s = TaskStatus.Done)) then TaskStatus.Done
  else if subtask_statuses.any (fun s => decide (s = TaskStatus.Cancelled)) then TaskStatus.Blocked
  else if subtask_statuses.any (fun s => decide (s = TaskStatus.Blocked)) then TaskStatus.Blocked
  else if subtask_statuses.any (fun s => decide (s = TaskStatus.InProgress)) then TaskStatus.InProgress
  else if subtask_statuses.all (fun s => decide (s = TaskStatus.Deferred)) then TaskStatus.Deferred
  else TaskStatus.Pending

/-- Fuelled embedding of `Task::compute_effective_status` (src/task.rs lines
98-140).  `none` models divergence of the Rust recursion (which has no cycle
protection); each recursive call consumes one unit of fuel. -/
def effectiveStatusFuel : Nat → List Task → Task → Option TaskStatus
  | 0, _, _ => none
  | n + 1, all_tasks, t =>
    if t.subtasks.isEmpty then some t.status
    else
      (mapOpt (effectiveStatusFuel n all_tasks)
          (t.subtasks.filterMap (findTask all_tasks))).map
        (statusFromChildren t.status)

/-- `Task::compute_effective_status` with fuel `all_tasks.length + 1`, enough
for any acyclic subtask forest drawn from `all_tasks`. -/
def Task.compute_effective_status (t : Task) (all_tasks : List Task) : Option TaskStatus :=
  effectiveStatusFuel (all_tasks.length + 1) all_tasks t

/-- `Task::subtask_progress` (src/task.rs lines 142-154): total is the raw
subtask-list length; completed counts subtask ids resolving to a task whose
effective status is `Done` (`unwrap_or(false)` for dangling ids).  `none`
models divergence of one of the effective-status computations. -/
def Task.subtask_progress (t : Task) (all_tasks : List Task) : Option (Nat × Nat) :=
  let total := t.subtasks.length
  (mapOpt (fun id =>
      match findTask all_tasks id with
      | some u => (Task.compute_effective_status u all_tasks).map
          (fun s => decide (s = TaskStatus.Done))
      | none => some false) t.subtasks).map
    (fun flags => (flags.count true, total))

/-- Identifier allocation from src/main.rs lines 53-54, 216-217 and 426-427:
`tasks.iter().map(|t| t.id).max().unwrap_or(0) + 1`.  Over `Nat`, the
max-with-default-0 is a fold of `max` from 0. -/
def next_id (tasks : List Task) : Nat :=
  (tasks.foldl (fun m t => max m t.id) 0) + 1

/-- `s.to_lowercase()` as used by the three parsers, modelled character by
character (the parser vocabularies are pure ASCII, where Rust and per-char
lowercasing agree). -/
def lowerString (s : String) : String :=
  String.mk (s.data.map Char.toLower)

/-- `parse_priority` (src/main.rs lines 477-484); `none` models the
`anyhow::bail!` error. -/
def parse_priority (s : String) : Option Priority :=
  let l := lowerString s
  if l = "high" then some Priority.High
  else if l = "medium" then some Priority.Medium
  else if l = "low" then some Priority.Low
  else none

/-- `parse_status` (src/main.rs lines 486-496); `none` models the
`anyhow::bail!` error. -/
def parse_status (s : String) : Option TaskStatus :=
  let l := lowerString s
  if l = "pending" then some TaskStatus.Pending
  else if l = "in-progress" then some TaskStatus.InProgress
  else if l = "done" then some TaskStatus.Done
  else if l = "blocked" then some TaskStatus.Blocked
  else if l = "deferred" then some TaskStatus.Deferred
  else if l = "cancelled" then some TaskStatus.Cancelled
  else none

/-- `parse_complexity` (src/main.rs lines 498-505); `none` models the
`anyhow::bail!` error. -/
def parse_complexity (s : String) : Option Complexity :=
  let l := lowerString s
  if l = "simple" then some Complexity.Simple
  else if l = "medium" then some Complexity.Medium
  else if l = "complex" then some Complexity.Complex
  else none

/-- Modelled from the spec: the `storage::TaskStorage` module is not under
src/ (only its callers are).  Spec section 4.2 requires a durable mapping
from task id to record; `saveTask(task)` is an upsert by `id` that
overwrites any prior record whole.  The store is modelled as the list of
currently stored records; an upsert replaces every record carrying the id
or appends when the id is absent. -/
def save_task (store : List Task) (t : Task) : List Task :=
  if store.any (fun u => u.id == t.id) then
    store.map (fun u => if u.id == t.id then t else u)
  else store ++ [t]

/-- Modelled from the spec: `loadTask(id) -> Task`, failing with `NotFound`
(`none`) when no record exists for the id. -/
def load_task (store : List Task) (id : Nat) : Option Task :=
  store.find? (fun u => u.id == id)

/-- The ordered aggregation rule list exactly as spec section 4.1 states it
for a non-empty child-status list, first match winning: (a) all children
`Done` gives `Done`; (b) any child `Cancelled` gives `Blocked`; (c) any
child `Blocked` gives `Blocked`; (d) any child `InProgress` gives
`InProgress`; (e) all children `Deferred` gives `Deferred`; (f) otherwise
`Pending`. -/
def specStatusRules (children : List TaskStatus) : TaskStatus :=
  if children.all (fun s => decide (s = TaskStatus.Done)) then TaskStatus.Done
  else if children.any (fun s => decide (s = TaskStatus.Cancelled)) then TaskStatus.Blocked
  else if children.any (fun s => decide (s = TaskStatus.Blocked)) then TaskStatus.Blocked
  else if children.any (fun s => decide (s = TaskStatus.InProgress)) then TaskStatus.InProgress
  else if children.all (fun s => decide (s = TaskStatus.Deferred)) then TaskStatus.Deferred
  else TaskStatus.Pending

/-- A ranking witnessing acyclicity of the subtask-reference relation: every
resolved child ranks strictly below its parent.  A finite directed graph
admits such a ranking exactly when it is acyclic (topological order). -/
def subtaskRankOk (all_tasks : List Task) (rk : Nat → Nat) : Bool :=
  all_tasks.all fun t => t.subtasks.all fun id =>
    match findTask all_tasks id with
    | some u => decide (rk u.id < rk t.id)
    | none => true

/-- A task record with the given id, stored status and subtask ids, all
other fields at their creation defaults; used for concrete test inputs. -/
def mkTask (id : Nat) (status : TaskStatus) (subtasks : List Nat) : Task :=
  { id := id, title := "", description := "", status := status,
    priority := Priority.Medium, complexity := none, dependencies := ∅,
    subtasks := subtasks, created_at := 0, updated_at := 0,
    completed_at := none, tags := [] }

/-- A task whose subtask list names itself: the recursion finds itself as
its own child and descends forever, so every fuel bound is exhausted. -/
def cyclicTask : Task := mkTask 1 TaskStatus.Pending [1]

/-! Concrete inputs for the spec's worked examples and for witnesses. -/

/-- Parent with one `Cancelled` and one `InProgress` child. -/
def C1parentA : Task := mkTask 1 TaskStatus.Pending [2, 3]

def C1tasksA : List Task :=
  [C1parentA, mkTask 2 TaskStatus.Cancelled [], mkTask 3 TaskStatus.InProgress []]

/-- Parent with two `Deferred` children. -/
def C1parentB : Task := mkTask 4 TaskStatus.Pending [5, 6]

def C1tasksB : List Task :=
  [C1parentB, mkTask 5 TaskStatus.Deferred [], mkTask 6 TaskStatus.Deferred []]

/-- Parent with two `Deferred` children and one `Pending` sibling. -/
def C1parentC : Task := mkTask 7 TaskStatus.Pending [8, 9, 10]

def C1tasksC : List Task :=
  [C1parentC, mkTask 8 TaskStatus.Deferred [], mkTask 9 TaskStatus.Deferred [],
   mkTask 10 TaskStatus.Pending []]

/-- A `Cancelled` task with no subtasks. -/
def C2taskA : Task := mkTask 1 TaskStatus.Cancelled []

/-- A `Deferred` task whose two subtask ids are both dangling. -/
def C2taskB : Task := mkTask 2 TaskStatus.Deferred [77, 88]

/-- Parent with one resolving `Done` child and one dangling subtask id. -/
def C3parent : Task := mkTask 1 TaskStatus.Pending [2, 99]

def C3tasks : List Task := [C3parent, mkTask 2 TaskStatus.Done []]

/-- A store listing with ids 1, 3, 5. -/
def C6tasks : List Task :=
  [mkTask 1 TaskStatus.Pending [], mkTask 3 TaskStatus.Pending [],
   mkTask 5 TaskStatus.Pending []]

def C8store : List Task :=
  [mkTask 1 TaskStatus.Pending [], mkTask 2 TaskStatus.Pending []]

def C8task : Task := mkTask 1 TaskStatus.Done []

def C9taskA : Task := mkTask 1 TaskStatus.Pending [2]

def C9taskB : Task := mkTask 2 TaskStatus.Done []

/-- A topological ranking for the two-task forest `[C9taskA, C9taskB]`. -/
def C9rank : Nat → Nat := fun n => if n = 1 then 1 else 0

/-- Stored status `Cancelled`, but one resolving `Pending` child. -/
def C10parent : Task := mkTask 1 TaskStatus.Cancelled [2]

def C10tasks : List Task := [C10parent, mkTask 2 TaskStatus.Pending []]

/-! Helper lemmas. -/

theorem mapOpt_length {f : α → Option β} :
    ∀ {l : List α} {bs : List β}, mapOpt f l = some bs → bs.length = l.length := by
  intro l
  induction l with
  | nil =>
    intro bs h
    simp only [mapOpt, Option.some.injEq] at h
    subst h
    rfl
  | cons a as ih =>
    intro bs h
    simp only [mapOpt] at h
    cases hfa : f a with
    | none => rw [hfa] at h; exact absurd h (by simp)
    | some b =>
      rw [hfa] at h
      cases hrest : mapOpt f as with
      | none => rw [hrest] at h; exact absurd h (by simp)
      | some bs2 =>
        rw [hrest] at h
        simp only [Option.some.injEq] at h
        subst h
        simp [ih hrest]

theorem mapOpt_congr_some {f g : α → Option β}
    (hfg : ∀ a ∈ l, ∀ b, f a = some b → g a = some b) :
    ∀ {bs : List β}, mapOpt f l = some bs → mapOpt g l = some bs := by
  induction l with
  | nil => intro bs h; exact h
  | cons a as ih =>
    intro bs h
    simp only [mapOpt] at h ⊢
    cases hfa : f a with
    | none => rw [hfa] at h; exact absurd h (by simp)
    | some b =>
      rw [hfa] at h
      cases hrest : mapOpt f as with
      | none => rw [hrest] at h; exact absurd h (by simp)
      | some bs2 =>
        rw [hrest] at h
        rw [hfg a (List.mem_cons_self a as) b hfa,
          ih (fun x hx => hfg x (List.mem_cons_of_mem a hx)) hrest]
        exact h

theorem mapOpt_isSome_of {f : α → Option β} :
    ∀ {l : List α}, (∀ a ∈ l, (f a).isSome = true) → ∃ bs, mapOpt f l = some bs := by
  intro l
  induction l with
  | nil => intro _; exact ⟨[], rfl⟩
  | cons a as ih =>
    intro h
    obtain ⟨b, hb⟩ := Option.isSome_iff_exists.mp (h a (List.mem_cons_self a as))
    obtain ⟨bs, hbs⟩ := ih (fun x hx => h x (List.mem_cons_of_mem a hx))
    exact ⟨b :: bs, by simp only [mapOpt, hb, hbs]⟩

theorem statusFromChildren_of_ne_nil (own : TaskStatus) {ss : List TaskStatus}
    (h : ss ≠ []) : statusFromChildren own ss = specStatusRules ss := by
  cases ss with
  | nil => exact absurd rfl h
  | cons s ss => rfl

theorem specStatusRules_ne_cancelled (ss : List TaskStatus) :
    specStatusRules ss ≠ TaskStatus.Cancelled := by
  unfold specStatusRules
  split_ifs <;> intro h <;> cases h

theorem effectiveStatusFuel_succ (n : Nat) (all_tasks : List Task) (t : Task) :
    effectiveStatusFuel (n + 1) all_tasks t =
      if t.subtasks.isEmpty then some t.status
      else (mapOpt (effectiveStatusFuel n all_tasks)
          (t.subtasks.filterMap (findTask all_tasks))).map
        (statusFromChildren t.status) := rfl

theorem effectiveStatusFuel_mono {all_tasks : List Task} :
    ∀ {n : Nat} {t : Task} {s : TaskStatus},
      effectiveStatusFuel n all_tasks t = some s →
      effectiveStatusFuel (n + 1) all_tasks t = some s := by
  intro n
  induction n with
  | zero => intro t s h; exact absurd h (by simp [effectiveStatusFuel])
  | succ n ih =>
    intro t s h
    rw [effectiveStatusFuel_succ] at h
    rw [effectiveStatusFuel_succ]
    cases hemp : t.subtasks.isEmpty with
    | true => rw [hemp] at h; simpa using h
    | false =>
      rw [hemp] at h
      simp only [Bool.false_eq_true, if_false] at h ⊢
      obtain ⟨ss, hss, hrules⟩ := Option.map_eq_some'.mp h
      rw [mapOpt_congr_some (fun u _ b hb => ih hb) hss]
      simpa using hrules

/-- Shared shape lemma: a terminating effective-status computation over a
non-empty resolved child list produces the child statuses (each itself a
terminating top-level computation) filtered through the spec rule chain. -/
theorem compute_rules_of_resolved_ne_nil {t : Task} {all_tasks : List Task}
    {s : TaskStatus}
    (hne : t.subtasks.filterMap (findTask all_tasks) ≠ [])
    (h : Task.compute_effective_status t all_tasks = some s) :
    ∃ ss, mapOpt (fun u => Task.compute_effective_status u all_tasks)
        (t.subtasks.filterMap (findTask all_tasks)) = some ss
      ∧ ss ≠ [] ∧ s = specStatusRules ss := by
  have hsub : t.subtasks ≠ [] := by
    intro hnil
    exact hne (by simp [hnil])
  have hemp : t.subtasks.isEmpty = false := by
    cases hs : t.subtasks with
    | nil => exact absurd hs hsub
    | cons a as => rfl
  rw [Task.compute_effective_status, effectiveStatusFuel_succ, hemp] at h
  simp only [Bool.false_eq_true, if_false] at h
  obtain ⟨ss, hss, hrules⟩ := Option.map_eq_some'.mp h
  have hlen := mapOpt_length hss
  have hssne : ss ≠ [] := by
    intro hnil
    subst hnil
    exact hne (List.length_eq_zero.mp hlen.symm)
  refine ⟨ss, ?_, hssne, ?_⟩
  · exact mapOpt_congr_some (fun u _ b hb => effectiveStatusFuel_mono hb) hss
  · rw [← hrules, statusFromChildren_of_ne_nil _ hssne]

theorem subtaskRankOk_spec {all_tasks : List Task} {rk : Nat → Nat}
    (hok : subtaskRankOk all_tasks rk = true) :
    ∀ t ∈ all_tasks, ∀ id ∈ t.subtasks, ∀ u,
      findTask all_tasks id = some u → rk u.id < rk t.id := by
  intro t ht id hid u hu
  have h1 := List.all_eq_true.mp hok t ht
  have h2 := List.all_eq_true.mp h1 id hid
  rw [hu] at h2
  exact of_decide_eq_true h2

theorem effectiveStatusFuel_isSome_of_rank {all_tasks : List Task} {rk : Nat → Nat}
    (hok : subtaskRankOk all_tasks rk = true) :
    ∀ (n : Nat), ∀ t ∈ all_tasks, rk t.id < n →
      (effectiveStatusFuel n all_tasks t).isSome = true := by
  intro n
  induction n with
  | zero => intro t _ hrk; exact absurd hrk (Nat.not_lt_zero _)
  | succ n ih =>
    intro t ht hrk
    rw [effectiveStatusFuel_succ]
    cases hemp : t.subtasks.isEmpty with
    | true => rfl
    | false =>
      simp only [Bool.false_eq_true, if_false]
      have hall : ∀ u ∈ t.subtasks.filterMap (findTask all_tasks),
          (effectiveStatusFuel n all_tasks u).isSome = true := by
        intro u hu
        obtain ⟨id, hid, hfind⟩ := List.mem_filterMap.mp hu
        have humem : u ∈ all_tasks := List.mem_of_find?_eq_some hfind
        have hlt : rk u.id < rk t.id := subtaskRankOk_spec hok t ht id hid u hfind
        exact ih u humem (Nat.lt_of_lt_of_le hlt (Nat.lt_succ_iff.mp hrk))
      obtain ⟨ss, hss⟩ := mapOpt_isSome_of hall
      rw [hss]
      rfl

theorem foldl_max_init_le (l : List Task) :
    ∀ init : Nat, init ≤ l.foldl (fun m t => max m t.id) init := by
  induction l with
  | nil => intro init; exact Nat.le_refl _
  | cons a as ih =>
    intro init
    exact Nat.le_trans (Nat.le_max_left _ _) (ih (max init a.id))

theorem id_le_foldl_max {l : List Task} :
    ∀ init : Nat, ∀ t ∈ l, t.id ≤ l.foldl (fun m t => max m t.id) init := by
  induction l with
  | nil => intro init t ht; cases ht
  | cons a as ih =>
    intro init t ht
    rcases List.mem_cons.mp ht with h1 | h2
    · subst h1
      exact Nat.le_trans (Nat.le_max_right init t.id) (foldl_max_init_le as _)
    · exact ih (max init a.id) t h2

theorem mapOpt_flags_count {all_tasks : List Task} :
    ∀ {ids : List Nat} {flags : List Bool},
      mapOpt (fun id => match findTask all_tasks id with
        | some u => (Task.compute_effective_status u all_tasks).map
            (fun s => decide (s = TaskStatus.Done))
        | none => some false) ids = some flags →
      flags.count true = ids.countP (fun id =>
        match findTask all_tasks id with
        | some u => decide (Task.compute_effective_status u all_tasks = some TaskStatus.Done)
        | none => false) := by
  intro ids
  induction ids with
  | nil =>
    intro flags h
    simp only [mapOpt, Option.some.injEq] at h
    subst h
    rfl
  | cons id ids ih =>
    intro flags h
    simp only [mapOpt] at h
    cases hfind : findTask all_tasks id with
    | none =>
      rw [hfind] at h
      simp only at h
      cases hrest : mapOpt (fun id => match findTask all_tasks id with
          | some u => (Task.compute_effective_status u all_tasks).map
              (fun s => decide (s = TaskStatus.Done))
          | none => some false) ids with
      | none => rw [hrest] at h; exact absurd h (by simp)
      | some bs =>
        rw [hrest] at h
        simp only [Option.some.injEq] at h
        subst h
        simp [List.countP_cons, hfind, ih hrest]
    | some u =>
      rw [hfind] at h
      simp only at h
      cases hcomp : Task.compute_effective_status u all_tasks with
      | none => rw [hcomp] at h; exact absurd h (by simp)
      | some s =>
        rw [hcomp] at h
        simp only [Option.map_some'] at h
        cases hrest : mapOpt (fun id => match findTask all_tasks id with
            | some u => (Task.compute_effective_status u all_tasks).map
                (fun s => decide (s = TaskStatus.Done))
            | none => some false) ids with
        | none => rw [hrest] at h; exact absurd h (by simp)
        | some bs =>
          rw [hrest] at h
          simp only [Option.some.injEq] at h
          subst h
          simp only [List.count_cons, List.countP_cons, hfind, hcomp, ih hrest,
            Option.some.injEq]
          by_cases hs : s = TaskStatus.Done <;> simp [hs]

theorem find_save_replace {t : Task} :
    ∀ {store : List Task}, store.any (fun u => u.id == t.id) = true →
      (store.map (fun u => if u.id == t.id then t else u)).find?
        (fun u => u.id == t.id) = some t := by
  intro store
  induction store with
  | nil => intro h; cases h
  | cons a as ih =>
    intro h
    simp only [List.map_cons]
    cases ha : a.id == t.id with
    | true =>
      simp only [ha, if_true]
      simp [List.find?]
    | false =>
      simp only [ha, Bool.false_eq_true, if_false]
      have has : as.any (fun u => u.id == t.id) = true := by
        simp only [List.any_cons, ha, Bool.false_or] at h
        exact h
      simp only [List.find?, ha]
      exact ih has

theorem find_append_absent {t : Task} :
    ∀ {store : List Task}, store.any (fun u => u.id == t.id) = false →
      (store ++ [t]).find? (fun u => u.id == t.id) = some t := by
  intro store
  induction store with
  | nil => intro _; simp [List.find?]
  | cons a as ih =>
    intro h
    simp only [List.any_cons, Bool.or_eq_false_iff] at h
    simp only [List.cons_append, List.find?, h.1]
    exact ih h.2

theorem save_task_mem_id {store : List Task} {t u : Task}
    (hu : u ∈ save_task store t) (hid : u.id = t.id) : u = t := by
  unfold save_task at hu
  cases hany : store.any (fun w => w.id == t.id) with
  | true =>
    rw [if_pos hany] at hu
    obtain ⟨a, _, hmap⟩ := List.mem_map.mp hu
    cases haid : a.id == t.id with
    | true => rw [if_pos haid] at hmap; exact hmap.symm
    | false =>
      rw [if_neg (by simp [haid])] at hmap
      subst hmap
      exact absurd (by simpa using hid) (by simpa using haid)
  | false =>
    rw [if_neg (by simp [hany])] at hu
    rcases List.mem_append.mp hu with h1 | h2
    · have := List.any_eq_false.mp hany u h1
      exact absurd (by simpa using hid) (by simpa using this)
    · simpa using h2

theorem cyclicTask_diverges :
    ∀ n, effectiveStatusFuel n [cyclicTask] cyclicTask = none := by
  intro n
  induction n with
  | zero => rfl
  | succ n ih =>
    rw [effectiveStatusFuel_succ]
    have h1 : cyclicTask.subtasks.isEmpty = false := rfl
    have h2 : cyclicTask.subtasks.filterMap (findTask [cyclicTask]) = [cyclicTask] := rfl
    rw [h1, h2]
    simp only [Bool.false_eq_true, if_false, mapOpt, ih]
    rfl

/-! Claim theorems. -/

/-- C1: for every task with at least one subtask id resolving in
`all_tasks`, a terminating `compute_effective_status` run returns exactly
the spec's ordered first-match rule list (a)-(f) applied to the children's
recursively computed effective statuses; in particular children
`{Cancelled, InProgress}` give `Blocked`, `{Deferred, Deferred}` give
`Deferred`, and `{Deferred, Deferred, Pending}` give `Pending`. -/
theorem C1_effective_status_rule_order :
    (∀ (t : Task) (all_tasks : List Task) (s : TaskStatus),
      t.subtasks.filterMap (findTask all_tasks) ≠ [] →
      Task.compute_effective_status t all_tasks = some s →
      ∃ ss, mapOpt (fun u => Task.compute_effective_status u all_tasks)
          (t.subtasks.filterMap (findTask all_tasks)) = some ss
        ∧ ss ≠ [] ∧ s = specStatusRules ss)
    ∧ Task.compute_effective_status C1parentA C1tasksA = some TaskStatus.Blocked
    ∧ Task.compute_effective_status C1parentB C1tasksB = some TaskStatus.Deferred
    ∧ Task.compute_effective_status C1parentC C1tasksC = some TaskStatus.Pending := by
  refine ⟨?_, by decide, by decide, by decide⟩
  intro t all_tasks s hne h
  exact compute_rules_of_resolved_ne_nil hne h

/-- Witness for C1 at the `{Cancelled, InProgress}` forest. -/
theorem C1_effective_status_rule_order_witness :
    ∃ ss, mapOpt (fun u => Task.compute_effective_status u C1tasksA)
        (C1parentA.subtasks.filterMap (findTask C1tasksA)) = some ss
      ∧ ss ≠ [] ∧ TaskStatus.Blocked = specStatusRules ss :=
  C1_effective_status_rule_order.1 C1parentA C1tasksA TaskStatus.Blocked
    (by decide) (by decide)

/-- C2: a task with no subtasks has effective status equal to its stored
status, and so does a task all of whose subtask ids are dangling (missing
ids are silently skipped, not errors). -/
theorem C2_empty_or_all_dangling_falls_back :
    ∀ (t : Task) (all_tasks : List Task),
      (t.subtasks = [] → Task.compute_effective_status t all_tasks = some t.status)
      ∧ (t.subtasks ≠ [] → (∀ id ∈ t.subtasks, findTask all_tasks id = none) →
          Task.compute_effective_status t all_tasks = some t.status) := by
  intro t all_tasks
  constructor
  · intro h
    rw [Task.compute_effective_status, effectiveStatusFuel_succ,
      if_pos (by simp [h])]
  · intro hne hdang
    have hemp : t.subtasks.isEmpty = false := by
      cases hs : t.subtasks with
      | nil => exact absurd hs hne
      | cons a as => rfl
    rw [Task.compute_effective_status, effectiveStatusFuel_succ,
      if_neg (by simp [hemp]), List.filterMap_eq_nil_iff.mpr hdang]
    rfl

/-- Witness for C2: a subtask-free `Cancelled` task, and a `Deferred` task
with only dangling subtask ids. -/
theorem C2_empty_or_all_dangling_falls_back_witness :
    Task.compute_effective_status C2taskA [] = some TaskStatus.Cancelled
    ∧ Task.compute_effective_status C2taskB [C2taskA] = some TaskStatus.Deferred :=
  ⟨(C2_empty_or_all_dangling_falls_back C2taskA []).1 rfl,
   (C2_empty_or_all_dangling_falls_back C2taskB [C2taskA]).2 (by decide) (by decide)⟩

/-- C3: `subtask_progress` reports total = literal subtask-list length
(dangling ids included) and completed = the count of subtask ids that
resolve to a task whose recursive effective status is `Done`; completed
never exceeds total and never counts a dangling id. -/
theorem C3_subtask_progress_counts :
    ∀ (t : Task) (all_tasks : List Task) (c tot : Nat),
      Task.subtask_progress t all_tasks = some (c, tot) →
      tot = t.subtasks.length
      ∧ c = t.subtasks.countP (fun id =>
          match findTask all_tasks id with
          | some u => decide (Task.compute_effective_status u all_tasks = some TaskStatus.Done)
          | none => false)
      ∧ c ≤ tot := by
  intro t all_tasks c tot h
  simp only [Task.subtask_progress] at h
  obtain ⟨flags, hflags, hpair⟩ := Option.map_eq_some'.mp h
  have hcount := mapOpt_flags_count hflags
  cases hpair
  exact ⟨rfl, hcount, by rw [hcount]; exact List.countP_le_length _⟩

/-- Witness for C3 at a forest with one `Done` child and one dangling id. -/
theorem C3_subtask_progress_counts_witness :
    2 = C3parent.subtasks.length
    ∧ 1 = C3parent.subtasks.countP (fun id =>
        match findTask C3tasks id with
        | some u => decide (Task.compute_effective_status u C3tasks = some TaskStatus.Done)
        | none => false)
    ∧ 1 ≤ 2 :=
  C3_subtask_progress_counts C3parent C3tasks 1 2 (by decide)

/-- C4: `is_ready` holds exactly when the stored status is `Pending` and
every dependency id is among the completed ids; any other stored status is
never ready. -/
theorem C4_is_ready_iff :
    ∀ (t : Task) (completed : Finset Nat),
      t.is_ready completed = true ↔
        (t.status = TaskStatus.Pending ∧ t.dependencies ⊆ completed) := by
  intro t completed
  unfold Task.is_ready
  cases hst : t.status <;> simp [hst]

/-- C5: `set_status` stores the new status, stamps `updated_at`, sets
`completed_at` exactly on a transition to `Done` (never clearing it
otherwise), and leaves every other field unchanged. -/
theorem C5_set_status_frame :
    ∀ (t : Task) (st : TaskStatus) (now : Nat),
      (t.set_status st now).status = st
      ∧ (t.set_status st now).updated_at = now
      ∧ (t.set_status st now).completed_at =
          (if st = TaskStatus.Done then some now else t.completed_at)
      ∧ (t.set_status st now).id = t.id
      ∧ (t.set_status st now).title = t.title
      ∧ (t.set_status st now).description = t.description
      ∧ (t.set_status st now).priority = t.priority
      ∧ (t.set_status st now).complexity = t.complexity
      ∧ (t.set_status st now).dependencies = t.dependencies
      ∧ (t.set_status st now).subtasks = t.subtasks
      ∧ (t.set_status st now).created_at = t.created_at
      ∧ (t.set_status st now).tags = t.tags := by
  intro t st now
  unfold Task.set_status
  by_cases h : st = TaskStatus.Done <;> simp [h]

/-- C6: identifier allocation is max existing id plus one, 1 on an empty
store; ids `{1,3,5}` allocate 6 (gaps are never filled), and the new id is
strictly greater than every existing id. -/
theorem C6_next_id_allocation :
    next_id [] = 1
    ∧ next_id C6tasks = 6
    ∧ (∀ (tasks : List Task), ∀ t ∈ tasks, t.id < next_id tasks) := by
  refine ⟨rfl, by decide, ?_⟩
  intro tasks t ht
  exact Nat.lt_succ_of_le (id_le_foldl_max 0 t ht)

/-- Witness for C6: the task with id 3 sits strictly below the allocated
id over the listing with ids 1, 3, 5. -/
theorem C6_next_id_allocation_witness :
    (mkTask 3 TaskStatus.Pending []).id < next_id C6tasks :=
  C6_next_id_allocation.2.2 C6tasks (mkTask 3 TaskStatus.Pending []) (by decide)

/-- C7: the three boundary parsers succeed exactly on the lowercased
closed vocabularies for status, priority and complexity. -/
theorem C7_parser_closed_vocabularies :
    ∀ s : String,
      ((parse_status s).isSome = true ↔
        lowerString s ∈ ["pending", "in-progress", "done", "blocked", "deferred", "cancelled"])
      ∧ ((parse_priority s).isSome = true ↔ lowerString s ∈ ["high", "medium", "low"])
      ∧ ((parse_complexity s).isSome = true ↔ lowerString s ∈ ["simple", "medium", "complex"]) := by
  intro s
  refine ⟨?_, ?_, ?_⟩
  · simp only [parse_status]
    split_ifs with h1 h2 h3 h4 h5 h6 <;> simp_all
  · simp only [parse_priority]
    split_ifs with h1 h2 h3 <;> simp_all
  · simp only [parse_complexity]
    split_ifs with h1 h2 h3 <;> simp_all

/-- C8: saving a task and loading it back by its id returns a record equal
in every field, and after the upsert every stored record carrying that id
is exactly the task passed in. -/
theorem C8_save_load_roundtrip :
    ∀ (store : List Task) (t : Task),
      load_task (save_task store t) t.id = some t
      ∧ (∀ u ∈ save_task store t, u.id = t.id → u = t) := by
  intro store t
  constructor
  · unfold load_task save_task
    cases hany : store.any (fun u => u.id == t.id) with
    | true => rw [if_pos rfl]; exact find_save_replace hany
    | false => rw [if_neg Bool.false_ne_true]; exact find_append_absent hany
  · intro u hu hid
    exact save_task_mem_id hu hid

/-- Witness for C8: overwriting the record with id 1. -/
theorem C8_save_load_roundtrip_witness :
    load_task (save_task C8store C8task) C8task.id = some C8task
    ∧ C8task = C8task :=
  ⟨(C8_save_load_roundtrip C8store C8task).1,
   (C8_save_load_roundtrip C8store C8task).2 C8task (by decide) rfl⟩

/-- C9: `add_subtask` appends any id unchecked (including the task's own
id), so nothing prevents cycles; the effective-status recursion terminates
for every task set whose subtask-reference relation is acyclic (witnessed
by a topological ranking bounded by the task count), and acyclicity is
required: the self-referencing task exhausts every fuel bound. -/
theorem C9_recursion_termination :
    (∀ (t : Task) (id now : Nat), (t.add_subtask id now).subtasks = t.subtasks ++ [id])
    ∧ (∀ (all_tasks : List Task) (rk : Nat → Nat),
        subtaskRankOk all_tasks rk = true →
        (∀ t ∈ all_tasks, rk t.id < all_tasks.length) →
        ∀ t ∈ all_tasks, (Task.compute_effective_status t all_tasks).isSome = true)
    ∧ (∀ n, effectiveStatusFuel n [cyclicTask] cyclicTask = none) := by
  refine ⟨fun t id now => rfl, ?_, cyclicTask_diverges⟩
  intro all_tasks rk hok hbound t ht
  exact effectiveStatusFuel_isSome_of_rank hok (all_tasks.length + 1) t ht
    (Nat.lt_succ_of_lt (hbound t ht))

/-- Witness for C9 at a two-task acyclic forest with an explicit ranking. -/
theorem C9_recursion_termination_witness :
    (Task.compute_effective_status C9taskA [C9taskA, C9taskB]).isSome = true :=
  C9_recursion_termination.2.1 [C9taskA, C9taskB] C9rank (by decide)
    (by decide) C9taskA (by decide)

/-- C10: a task with at least one resolving subtask never gets effective
status `Cancelled`: every aggregation rule produces `Done`, `Blocked`,
`InProgress`, `Deferred` or `Pending`. -/
theorem C10_never_cancelled_with_children :
    ∀ (t : Task) (all_tasks : List Task),
      t.subtasks.filterMap (findTask all_tasks) ≠ [] →
      Task.compute_effective_status t all_tasks ≠ some TaskStatus.Cancelled := by
  intro t all_tasks hne h
  obtain ⟨ss, _, _, hrules⟩ := compute_rules_of_resolved_ne_nil hne h
  exact specStatusRules_ne_cancelled ss hrules.symm

/-- Witness for C10: stored status `Cancelled` with a resolving `Pending`
child is not reported `Cancelled`. -/
theorem C10_never_cancelled_with_children_witness :
    Task.compute_effective_status C10parent C10tasks ≠ some TaskStatus.Cancelled :=
  C10_never_cancelled_with_children C10parent C10tasks (by decide)

end Trusty
